import Mathlib

/-
  Verification development for the Whale-watcher signal engine (src/main.py).

  Shallow embedding conventions:
  * Python floats are modelled as exact rationals (ℚ); decimal literals such
    as 0.25 or 1e-9 denote the corresponding exact rational.
  * Python `round(x, n)` is modelled by `roundTo` (round half away handled by
    Mathlib's `round`, i.e. round half up; the difference from the binary
    float rounding is immaterial to the statements proved here).
  * Exceptions are modelled with `Except String`; a raised exception inside
    `compute_snapshot` propagates through the `Except` monad exactly as a
    Python exception propagates out of the function.
  * The wall clock is modelled as an explicit `now : ℚ` parameter; the
    process-wide `_snapshot_cache` dict is modelled as an explicit `SnapCache`
    value threaded through `compute_snapshot`.
  * Upstream HTTP fetches (`_ticker_many`, `_depth`, `_ohlc`) are modelled by
    the `Upstream` record of oracles; `compute_snapshot` additionally returns
    the number of upstream fetch operations it performed (one ticker batch
    when the pair list is nonempty, plus one depth and one ohlc fetch per
    processed symbol).
  * `_ensure_universe` (symbol discovery) is modelled by passing the symbol
    universe as an explicit argument, matching the `discover = false`
    configuration path.
-/

namespace WhaleWatcher

/-- Model of Python `round(x, n)`: round `x` to `n` decimal places. -/
def roundTo (x : ℚ) (n : ℕ) : ℚ := ((round (x * 10 ^ n) : ℤ) : ℚ) / 10 ^ n

/-- One entry of the Kraken AssetPairs directory as used by `_alt_from_symbol`:
the Python code keys the dict by `altname` and reads `wsname`. -/
structure PairMeta where
  altname : String
  wsname : String
deriving Repr, DecidableEq

/-- Ticker entry for one pair, as read by `compute_snapshot`:
`c` models the first element of the "c" field when that field is present and
nonempty (Python: `t.get("c", [0])[0] if t.get("c") else 0.0`), `o` models
`float(t.get("o", 0.0) or 0.0)`. -/
structure TickerInfo where
  c : Option ℚ
  o : ℚ
deriving Repr, DecidableEq

/-- Order-book snapshot returned by `_depth`: each level is (price, quantity)
(the Python code destructures `p, q, *_`). -/
structure DepthBook where
  bids : List (ℚ × ℚ)
  asks : List (ℚ × ℚ)
deriving Repr, DecidableEq

/-- One Kraken OHLC row `[time, open, high, low, close, vwap, volume, count]`;
the code reads indices 2 (high), 3 (low) and 4 (close). -/
structure Candle where
  t : ℚ
  o : ℚ
  h : ℚ
  l : ℚ
  c : ℚ
  vwap : ℚ
  vol : ℚ
  cnt : ℚ
deriving Repr, DecidableEq

/-- A whale level as built by `_whale_pressure`: `{"price": p, "qty": q, "usd": u}`. -/
structure WhaleLvl where
  price : ℚ
  qty : ℚ
  usd : ℚ
deriving Repr, DecidableEq

/-- The entry-plan dict produced by `_entry_plan`. -/
structure Entry where
  buy_zone : ℚ × ℚ
  sell_zone : ℚ × ℚ
  sl : ℚ
  tp1 : ℚ
  tp2 : ℚ
  rr : ℚ
deriving Repr, DecidableEq

/-- The "explain" sub-dict of a per-symbol reason record. -/
structure Explain where
  whale_pressure : ℚ
  mom_5m_pct : ℚ
  change_24h_pct : ℚ
  atr_approx : ℚ
deriving Repr, DecidableEq

/-- One per-symbol reason record assembled by `compute_snapshot`. -/
structure Reason where
  symbol : String
  price : ℚ
  bias : String
  score : ℚ
  explain : Explain
  entry : Entry
deriving Repr, DecidableEq

/-- One entry of the global `whale_levels_all` list (symbol, side, level). -/
structure SymWhale where
  symbol : String
  side : String
  price : ℚ
  qty : ℚ
  usd : ℚ
deriving Repr, DecidableEq

/-- One per-symbol entry of the snapshot's `data` list. -/
structure DataRec where
  symbol : String
  price : ℚ
  price_venue : String
  book_venues : List String
  ts : ℚ
  whale_bids : List WhaleLvl
  whale_asks : List WhaleLvl
deriving Repr, DecidableEq

/-- The snapshot payload built by `compute_snapshot`; `univ` models the
"universe" key, and `reasons` models the Python dict as an insertion-ordered
association list. -/
structure Snapshot where
  ts : ℚ
  univ : List String
  data : List DataRec
  whale_levels_top : List SymWhale
  reasons : List (String × Reason)
deriving Repr, DecidableEq

/-- The module-level `_snapshot_cache = {"ts": 0, "payload": None}`. -/
structure SnapCache where
  ts : ℚ
  payload : Option Snapshot
deriving Repr, DecidableEq

/-- Oracles for the upstream venue: the (cached) AssetPairs directory, the
batched Ticker fetch, and the per-pair Depth and OHLC fetches.  An
`Except.error` models a raised `requests` exception (e.g. a non-2xx status
from `raise_for_status`). -/
structure Upstream where
  pairs : List PairMeta
  ticker : Except String (List (String × TickerInfo))
  depth : String → Except String DepthBook
  ohlc : String → Except String (List Candle)

/-- `_alt_from_symbol(symbol)`: try the altnames `SYMBOL + "USD"` then
`SYMBOL + "USDT"`; otherwise fall back to the first directory entry whose
`wsname` starts with `SYMBOL + "/"`; `none` models the Python `return None`. -/
def alt_from_symbol (pairs : List PairMeta) (symbol : String) : Option String :=
  let u := symbol.toUpper
  match ["USD", "USDT"].find? (fun suf => pairs.any (fun m => m.altname == u ++ suf)) with
  | some suf => some (u ++ suf)
  | none =>
    match pairs.find? (fun m => m.wsname.startsWith (u ++ "/")) with
    | some m => some m.altname
    | none => none

/-- The inner `usd(side)` helper of `_whale_pressure`: scan a side, summing the
notional of, and collecting, exactly the levels whose notional `p*q` is at
least `min_usd`. -/
def usd_side (minUsd : ℚ) (side : List (ℚ × ℚ)) : ℚ × List WhaleLvl :=
  side.foldl
    (fun acc pq =>
      let u := pq.1 * pq.2
      if minUsd ≤ u then (acc.1 + u, acc.2 ++ [⟨pq.1, pq.2, u⟩]) else acc)
    (0, [])

/-- `_whale_pressure(depth, min_usd, max_levels)`: truncate each side to
`max_levels`, scan with `usd_side`, and return the normalized score together
with the collected big bids and asks.  `(bid_usd + ask_usd) or 1.0` is
modelled by the zero test on the sum. -/
def whale_pressure (depth : DepthBook) (minUsd : ℚ) (maxLevels : ℕ) :
    ℚ × List WhaleLvl × List WhaleLvl :=
  let bids := depth.bids.take maxLevels
  let asks := depth.asks.take maxLevels
  let bu := usd_side minUsd bids
  let au := usd_side minUsd asks
  let total := if bu.1 + au.1 = 0 then 1 else bu.1 + au.1
  ((bu.1 - au.1) / total, bu.2, au.2)

/-- The true-range loop of `_momentum_1m`: `prevClose` plays the role of the
`prev_close` loop variable (initialised to `closes[0]`), and each bar `i ≥ 1`
contributes `max(high[i]-low[i], |high[i]-prev_close|, |low[i]-prev_close|)`. -/
def trLoop (prevClose : ℚ) : List Candle → List ℚ
  | [] => []
  | x :: rest =>
      max (x.h - x.l) (max |x.h - prevClose| |x.l - prevClose|) :: trLoop x.c rest

/-- `_momentum_1m(ohlc)`: returns `(mom, atr)`.  `none` models the
`ZeroDivisionError` raised by `last/prev5` when `closes[-6] == 0`. -/
def momentum_1m (ohlc : List Candle) : Option (ℚ × ℚ) :=
  if ohlc.length < 6 then some (0, 0)
  else
    let closes := ohlc.map (fun x => x.c)
    let last := closes.getD (closes.length - 1) 0
    let prev5 := closes.getD (closes.length - 6) 0
    if prev5 = 0 then none
    else
      let mom := last / prev5 - 1
      let trs := match ohlc with
        | [] => []
        | x :: rest => trLoop x.c rest
      let atr :=
        if trs = [] then 0
        else (trs.drop (trs.length - 14)).sum / ((max 1 (min 14 trs.length) : ℕ) : ℚ)
      some (mom, atr)

/-- `_bias_from_features(mom, whale_score)`: blend, clamp to [-1, 1], label. -/
def bias_from_features (mom whaleScore : ℚ) : String × ℚ :=
  let score := 0.6 * whaleScore + 0.4 * (mom * 10)
  let score := max (-1 : ℚ) (min 1 score)
  let label := if score > 0.25 then "BUY" else if score < -0.25 then "SELL" else "HOLD"
  (label, score)

/-- `_entry_plan(price, atr)`: always returns a plan dict; a non-positive
`atr` is replaced by the 0.5% fallback `price * 0.005`. -/
def entry_plan (price atr : ℚ) : Entry :=
  let atr := if atr ≤ 0 then price * 0.005 else atr
  ⟨(roundTo (price * 0.995) 6, roundTo (price * 1.005) 6),
   (roundTo (price * 0.995) 6, roundTo (price * 1.005) 6),
   roundTo (price - 1.5 * atr) 6,
   roundTo (price + 1.5 * atr) 6,
   roundTo (price + 3.0 * atr) 6,
   roundTo ((3.0 * atr) / (1.5 * atr + 1e-9)) 2⟩

/-- Stable-descending insertion used to model Python's
`whale_levels_all.sort(key=lambda x: x["usd"], reverse=True)` (stable sort,
larger `usd` first). -/
def insertByUsd (x : SymWhale) : List SymWhale → List SymWhale
  | [] => [x]
  | y :: ys => if x.usd ≤ y.usd then y :: insertByUsd x ys else x :: y :: ys

/-- Stable descending sort by the `usd` field. -/
def sortWhalesDesc (l : List SymWhale) : List SymWhale :=
  l.foldl (fun acc x => insertByUsd x acc) []

/-- The per-symbol body of the `for sym, alt in zip(symbols, alts)` loop of
`compute_snapshot`: read the ticker entry, fetch depth and ohlc (a raised
fetch exception propagates as `Except.error`), run `_momentum_1m`,
`_whale_pressure`, `_bias_from_features` and `_entry_plan`, and assemble the
reason record, the data record and the contributed whale levels. -/
def processSymbol (U : Upstream) (tkr : List (String × TickerInfo))
    (minWhale now : ℚ) (sym alt : String) :
    Except String (Reason × DataRec × List SymWhale) := do
  let ti := tkr.lookup alt
  let price : ℚ := match ti with
    | some t => match t.c with
      | some v => v
      | none => 0
    | none => 0
  let openp : ℚ := match ti with
    | some t => t.o
    | none => 0
  let change24h := if openp = 0 then 0 else price / openp - 1
  let depth ← U.depth alt
  let ohlc ← U.ohlc alt
  let mv ← match momentum_1m ohlc with
    | some mv => Except.ok mv
    | none => Except.error "ZeroDivisionError"
  let mom := mv.1
  let atr := mv.2
  let wp := whale_pressure depth minWhale 10
  let whaleScore := wp.1
  let bigBids := wp.2.1
  let bigAsks := wp.2.2
  let bs := bias_from_features mom whaleScore
  let entry := entry_plan price atr
  let reason : Reason :=
    ⟨sym, price, bs.1, roundTo bs.2 3,
     ⟨roundTo whaleScore 3, roundTo (mom * 100) 2, roundTo (change24h * 100) 2,
      roundTo atr 6⟩,
     entry⟩
  let dataRec : DataRec :=
    ⟨sym, price, "kraken", ["kraken"], now, bigBids, bigAsks⟩
  let whales :=
    bigBids.map (fun lv => SymWhale.mk sym "BID" lv.price lv.qty lv.usd) ++
    bigAsks.map (fun lv => SymWhale.mk sym "ASK" lv.price lv.qty lv.usd)
  Except.ok (reason, dataRec, whales)

/-- The symbol loop of `compute_snapshot`, in list order; the first raised
exception aborts the rest of the loop, as in Python. -/
def processAll (U : Upstream) (tkr : List (String × TickerInfo))
    (minWhale now : ℚ) :
    List (String × String) → Except String (List (Reason × DataRec × List SymWhale))
  | [] => Except.ok []
  | sa :: rest => do
    let r ← processSymbol U tkr minWhale now sa.1 sa.2
    let rs ← processAll U tkr minWhale now rest
    Except.ok (r :: rs)

/-- The cache-miss body of `compute_snapshot`: resolve pairs (unresolvable
symbols are dropped by the `if a` filter), fetch the ticker batch, run the
symbol loop over `zip(symbols, alts)`, and assemble the snapshot.  The second
component counts the upstream fetch operations performed (one ticker batch
when `alts` is nonempty, plus one depth and one ohlc fetch per processed
symbol). -/
def compute_snapshot_fresh (U : Upstream) (minWhale : ℚ)
    (symbols : List String) (now : ℚ) : Except String (Snapshot × ℕ) := do
  let alts := symbols.filterMap (alt_from_symbol U.pairs)
  let tkr ← if alts.isEmpty then Except.ok [] else U.ticker
  let per ← processAll U tkr minWhale now (symbols.zip alts)
  let data := per.map (fun r => r.2.1)
  let reasons := per.map (fun r => (r.1.symbol, r.1))
  let whalesAll := per.foldl (fun acc r => acc ++ r.2.2) []
  let snap : Snapshot :=
    ⟨now, symbols, data, (sortWhalesDesc whalesAll).take 50, reasons⟩
  Except.ok (snap, (if alts.isEmpty then 0 else 1) + 2 * (symbols.zip alts).length)

/-- Recompute the snapshot and publish it into the cache slot. -/
def compute_snapshot_refresh (U : Upstream) (minWhale : ℚ)
    (symbols : List String) (now : ℚ) : Except String (Snapshot × SnapCache × ℕ) := do
  let sn ← compute_snapshot_fresh U minWhale symbols now
  Except.ok (sn.1, ⟨now, some sn.1⟩, sn.2)

/-- `compute_snapshot()`: serve the cached payload when it exists and is
within `snapshot_ttl_sec` of its timestamp (performing zero upstream
fetches and leaving the cache untouched); otherwise recompute and publish. -/
def compute_snapshot (U : Upstream) (minWhale ttl : ℚ) (symbols : List String)
    (st : SnapCache) (now : ℚ) : Except String (Snapshot × SnapCache × ℕ) :=
  match st.payload with
  | some p =>
    if now - st.ts < ttl then Except.ok (p, st, 0)
    else compute_snapshot_refresh U minWhale symbols now
  | none => compute_snapshot_refresh U minWhale symbols now

/-- Definition following the spec's words (for comparison with the code's
`_momentum_1m`): the true range of bar `i` is
`max(high[i]-low[i], |high[i]-close[i-1]|, |low[i]-close[i-1]|)`. -/
def true_range_spec (prev cur : Candle) : ℚ :=
  max (cur.h - cur.l) (max |cur.h - prev.c| |cur.l - prev.c|)

/-- Definition following the spec's words (for comparison with the code's
`_momentum_1m`): the volatility is the mean of the per-bar true range over
the most recent `window` bars, and `0` if fewer than 2 bars exist. -/
def volatility_spec (window : ℕ) (ohlc : List Candle) : ℚ :=
  if ohlc.length < 2 then 0
  else
    let trs := (ohlc.zip ohlc.tail).map (fun pc => true_range_spec pc.1 pc.2)
    (trs.drop (trs.length - window)).sum / ((min window trs.length : ℕ) : ℚ)

/-! ### Helper lemmas about the whale extractor -/

/-- The scan of `usd_side` collects exactly the in-order levels whose notional
passes the floor. -/
theorem usd_side_eq (minUsd : ℚ) (side : List (ℚ × ℚ)) :
    usd_side minUsd side =
      ((side.filterMap fun pq =>
          if minUsd ≤ pq.1 * pq.2 then some (pq.1 * pq.2) else none).sum,
       side.filterMap fun pq =>
         if minUsd ≤ pq.1 * pq.2 then some (⟨pq.1, pq.2, pq.1 * pq.2⟩ : WhaleLvl)
         else none) := by
  suffices h : ∀ (l : List (ℚ × ℚ)) (a : ℚ) (w : List WhaleLvl),
      l.foldl (fun acc pq =>
        let u := pq.1 * pq.2
        if minUsd ≤ u then (acc.1 + u, acc.2 ++ [⟨pq.1, pq.2, u⟩]) else acc) (a, w) =
      (a + (l.filterMap fun pq =>
              if minUsd ≤ pq.1 * pq.2 then some (pq.1 * pq.2) else none).sum,
       w ++ l.filterMap fun pq =>
         if minUsd ≤ pq.1 * pq.2 then some (⟨pq.1, pq.2, pq.1 * pq.2⟩ : WhaleLvl)
         else none) by
    simpa [usd_side] using h side 0 []
  intro l
  induction l with
  | nil => intro a w; simp
  | cons pq rest ih =>
    intro a w
    by_cases hu : minUsd ≤ pq.1 * pq.2
    · simp [hu, ih, List.filterMap_cons, add_assoc]
    · simp [hu, ih, List.filterMap_cons]

/-- The side total produced by `usd_side` is nonnegative whenever the floor
is. -/
theorem usd_side_fst_nonneg (minUsd : ℚ) (side : List (ℚ × ℚ))
    (h : 0 ≤ minUsd) : 0 ≤ (usd_side minUsd side).1 := by
  rw [usd_side_eq]
  refine List.sum_nonneg ?_
  intro x hx
  rcases List.mem_filterMap.mp hx with ⟨pq, _, hpq⟩
  by_cases hu : minUsd ≤ pq.1 * pq.2
  · simp only [hu, if_true, Option.some.injEq] at hpq
    exact le_trans h (hpq ▸ hu)
  · simp [hu] at hpq

/-- C2: the claim says the side total in USD equals the sum of price*quantity
over the ENTIRE input side, independent of the floor and the cap.  In the
code the totals are computed by `usd(side)` over the already-truncated side
and only levels with `p*q >= min_usd` contribute.  This theorem is the
amended claim: the side total equals the sum of the notionals of exactly the
levels that pass the floor (equivalently, of the whale levels actually
returned), so sub-floor levels contribute nothing. -/
theorem claim_C2_amended (minUsd : ℚ) (side : List (ℚ × ℚ)) :
    (usd_side minUsd side).1 =
      (side.filterMap fun pq =>
        if minUsd ≤ pq.1 * pq.2 then some (pq.1 * pq.2) else none).sum ∧
    (usd_side minUsd side).1 = ((usd_side minUsd side).2.map (fun w => w.usd)).sum := by
  constructor
  · rw [usd_side_eq]
  · rw [usd_side_eq]
    simp only [List.map_filterMap]
    have hfun : ∀ pq : ℚ × ℚ,
        Option.map (fun w : WhaleLvl => w.usd)
          (if minUsd ≤ pq.1 * pq.2 then some (⟨pq.1, pq.2, pq.1 * pq.2⟩ : WhaleLvl)
           else none) =
        (if minUsd ≤ pq.1 * pq.2 then some (pq.1 * pq.2) else none) := by
      intro pq
      by_cases hu : minUsd ≤ pq.1 * pq.2 <;> simp [hu]
    simp only [hfun]

/-- C2 counterexample: a single bid of notional 100 with floor 250000.  The
code's side total is 0, while the sum of price*quantity over the entire input
is 100, so the claimed equality fails. -/
theorem claim_C2_counterexample :
    (usd_side 250000 [((1 : ℚ), (100 : ℚ))]).1 = 0 ∧
    ([((1 : ℚ), (100 : ℚ))].map (fun pq => pq.1 * pq.2)).sum = 100 ∧
    (0 : ℚ) ≠ 100 := by
  refine ⟨by with_unfolding_all decide, by with_unfolding_all decide, by norm_num⟩

/-- C4: the claim says the returned whale-level list is sorted strictly
descending by notional.  The code never sorts the per-side lists (only the
cross-symbol `whale_levels_all` is sorted later), so this amended claim
states what actually holds: each returned list is the in-order filtration of
the first `max_levels` levels of its side by the floor, and its length is at
most `max_levels`. -/
theorem claim_C4_amended (d : DepthBook) (minUsd : ℚ) (maxLevels : ℕ) :
    (whale_pressure d minUsd maxLevels).2.1 =
      (d.bids.take maxLevels).filterMap (fun pq =>
        if minUsd ≤ pq.1 * pq.2 then some (⟨pq.1, pq.2, pq.1 * pq.2⟩ : WhaleLvl)
        else none) ∧
    (whale_pressure d minUsd maxLevels).2.2 =
      (d.asks.take maxLevels).filterMap (fun pq =>
        if minUsd ≤ pq.1 * pq.2 then some (⟨pq.1, pq.2, pq.1 * pq.2⟩ : WhaleLvl)
        else none) ∧
    (whale_pressure d minUsd maxLevels).2.1.length ≤ maxLevels ∧
    (whale_pressure d minUsd maxLevels).2.2.length ≤ maxLevels := by
  have hb := usd_side_eq minUsd (d.bids.take maxLevels)
  have ha := usd_side_eq minUsd (d.asks.take maxLevels)
  refine ⟨?_, ?_, ?_, ?_⟩
  · simp [whale_pressure, hb]
  · simp [whale_pressure, ha]
  · simp only [whale_pressure, hb]
    exact le_trans (List.length_filterMap_le _ _)
      (le_trans (List.length_take _ _ ▸ min_le_left _ _) le_rfl)
  · simp only [whale_pressure, ha]
    exact le_trans (List.length_filterMap_le _ _)
      (le_trans (List.length_take _ _ ▸ min_le_left _ _) le_rfl)

/-- C4 counterexample: two above-floor bids with increasing notionals
(300000 then 400000).  The returned list keeps the input order, so it is not
sorted strictly descending by notional. -/
theorem claim_C4_counterexample :
    ¬ List.Pairwise (fun x y : WhaleLvl => y.usd < x.usd)
        (whale_pressure ⟨[(1, 300000), (1, 400000)], []⟩ 250000 10).2.1 := by
  with_unfolding_all decide

/-- C10: for every depth input and nonnegative floor, the whale-pressure
score lies in [-1, 1] (no clamp is involved), and when both (filtered,
truncated) side totals are 0 the score is exactly 0 because the code
substitutes 1 for the zero denominator. -/
theorem claim_C10 (d : DepthBook) (minUsd : ℚ) (maxLevels : ℕ)
    (h : 0 ≤ minUsd) :
    -1 ≤ (whale_pressure d minUsd maxLevels).1 ∧
    (whale_pressure d minUsd maxLevels).1 ≤ 1 ∧
    ((usd_side minUsd (d.bids.take maxLevels)).1 = 0 →
     (usd_side minUsd (d.asks.take maxLevels)).1 = 0 →
     (whale_pressure d minUsd maxLevels).1 = 0) := by
  have hb := usd_side_fst_nonneg minUsd (d.bids.take maxLevels) h
  have ha := usd_side_fst_nonneg minUsd (d.asks.take maxLevels) h
  simp only [whale_pressure]
  set b := (usd_side minUsd (d.bids.take maxLevels)).1 with hbdef
  set a := (usd_side minUsd (d.asks.take maxLevels)).1 with hadef
  by_cases h0 : b + a = 0
  · have hb0 : b = 0 := by linarith
    have ha0 : a = 0 := by linarith
    simp [h0, hb0, ha0]
  · have hpos : 0 < b + a := lt_of_le_of_ne (add_nonneg hb ha) (Ne.symm h0)
    simp only [h0, if_false]
    refine ⟨?_, ?_, ?_⟩
    · rw [le_div_iff₀ hpos]; linarith
    · rw [div_le_one hpos]; linarith
    · intro hbz haz; exact absurd (by rw [hbz, haz]; ring) h0

/-- C10 witness: the empty book with floor 0 discharges the hypothesis and
yields score exactly 0. -/
theorem claim_C10_witness :
    (0 : ℚ) ≤ 0 ∧ (whale_pressure ⟨[], []⟩ 0 10).1 = 0 :=
  ⟨le_refl 0, (claim_C10 ⟨[], []⟩ 0 10 (le_refl 0)).2.2
    (by with_unfolding_all decide) (by with_unfolding_all decide)⟩

/-! ### Bias classifier (C6) -/

/-- C6: for every momentum value and whale score, the classifier's score lies
in [-1, 1] (it is clamped), and the label is BUY exactly when the score
exceeds the high threshold 0.25, SELL exactly when it is below the low
threshold -0.25, and HOLD exactly when the score lies between the two
thresholds. -/
theorem claim_C6 (mom whaleScore : ℚ) :
    -1 ≤ (bias_from_features mom whaleScore).2 ∧
    (bias_from_features mom whaleScore).2 ≤ 1 ∧
    ((bias_from_features mom whaleScore).1 = "BUY" ↔
      0.25 < (bias_from_features mom whaleScore).2) ∧
    ((bias_from_features mom whaleScore).1 = "SELL" ↔
      (bias_from_features mom whaleScore).2 < -0.25) ∧
    ((bias_from_features mom whaleScore).1 = "HOLD" ↔
      (-0.25 ≤ (bias_from_features mom whaleScore).2 ∧
       (bias_from_features mom whaleScore).2 ≤ 0.25)) := by
  have hsc : (bias_from_features mom whaleScore).2 =
      max (-1 : ℚ) (min 1 (0.6 * whaleScore + 0.4 * (mom * 10))) := rfl
  have hlb : (bias_from_features mom whaleScore).1 =
      (if (bias_from_features mom whaleScore).2 > 0.25 then "BUY"
       else if (bias_from_features mom whaleScore).2 < -0.25 then "SELL"
       else "HOLD") := rfl
  refine ⟨?_, ?_, ?_, ?_, ?_⟩
  · rw [hsc]; exact le_max_left _ _
  · rw [hsc]; exact max_le (by norm_num) (min_le_left _ _)
  · rw [hlb]; split_ifs with h1 h2
    · exact iff_of_true rfl h1
    · exact iff_of_false (by decide) h1
    · exact iff_of_false (by decide) h1
  · rw [hlb]; split_ifs with h1 h2
    · exact iff_of_false (by decide) (by intro hx; linarith)
    · exact iff_of_true rfl h2
    · exact iff_of_false (by decide) h2
  · rw [hlb]; split_ifs with h1 h2
    · exact iff_of_false (by decide) (by intro hx; rcases hx with ⟨_, hb⟩; linarith)
    · exact iff_of_false (by decide) (by intro hx; rcases hx with ⟨ha, _⟩; linarith)
    · exact iff_of_true rfl ⟨not_lt.mp h2, not_lt.mp h1⟩

/-- C6 witness: at zero inputs the score is 0 and the label is HOLD. -/
theorem claim_C6_witness :
    (bias_from_features 0 0).1 = "HOLD" ∧ -1 ≤ (bias_from_features 0 0).2 :=
  ⟨(claim_C6 0 0).2.2.2.2.mpr (by with_unfolding_all decide), (claim_C6 0 0).1⟩

/-! ### Entry planner (C3) -/

/-- `roundTo` never rounds down by more than half a unit in the last place. -/
theorem roundTo_ge_sub (x : ℚ) (n : ℕ) : x - 1 / (2 * 10 ^ n) ≤ roundTo x n := by
  have h := abs_sub_round (x * 10 ^ n)
  have h1 : x * 10 ^ n - ((round (x * 10 ^ n) : ℤ) : ℚ) ≤ 1 / 2 :=
    le_trans (le_abs_self _) h
  have hp : (0 : ℚ) < 10 ^ n := by positivity
  rw [roundTo, le_div_iff₀ hp]
  have he : (x - 1 / (2 * 10 ^ n)) * 10 ^ n = x * 10 ^ n - 1 / 2 := by
    field_simp
    ring
  rw [he]
  linarith

/-- C3: the claim says the planner returns none iff the label is HOLD or the
volatility is 0, and otherwise has riskReward > 0.  In the code `_entry_plan`
ignores the bias label, always returns a plan (substituting `price * 0.005`
when `atr <= 0`), and its rounded riskReward can even round down to 0 for
tiny volatilities.  This amended claim keeps what is true of the code: the
reported riskReward is strictly positive whenever the volatility is at least
0.01. -/
theorem claim_C3_amended (price atr : ℚ) (h : 1 / 100 ≤ atr) :
    0 < (entry_plan price atr).rr := by
  have hpos : ¬ atr ≤ 0 := not_le.mpr (by linarith)
  have hrr : (entry_plan price atr).rr =
      roundTo ((3.0 * atr) / (1.5 * atr + 1e-9)) 2 := by
    simp [entry_plan, hpos]
  have hden : (0 : ℚ) < 1.5 * atr + 1e-9 := by nlinarith
  have hratio : (1.9 : ℚ) ≤ (3.0 * atr) / (1.5 * atr + 1e-9) := by
    rw [le_div_iff₀ hden]
    nlinarith
  have hround := roundTo_ge_sub ((3.0 * atr) / (1.5 * atr + 1e-9)) 2
  have hnum : (1 : ℚ) / (2 * 10 ^ 2) = 1 / 200 := by norm_num
  rw [hrr]
  rw [hnum] at hround
  linarith

/-- C3 witness: volatility 1 discharges the hypothesis and yields a strictly
positive riskReward. -/
theorem claim_C3_witness :
    (1 : ℚ) / 100 ≤ 1 ∧ 0 < (entry_plan 1 1).rr :=
  ⟨by norm_num, claim_C3_amended 1 1 (by norm_num)⟩

/-- C3 counterexample: with zero momentum and zero whale score the bias is
HOLD and the volatility 0, yet `_entry_plan` still produces a full plan
(risk/reward 2) instead of none; moreover for a tiny positive volatility the
rounded riskReward is 0, refuting the claimed `riskReward > 0`. -/
theorem claim_C3_counterexample :
    (bias_from_features 0 0).1 = "HOLD" ∧
    entry_plan 100 0 =
      ⟨(99.5, 100.5), (99.5, 100.5), 99.25, 100.75, 101.5, 2⟩ ∧
    (entry_plan 0 (1 / 1000000000000)).rr = 0 := by
  refine ⟨by with_unfolding_all decide, by with_unfolding_all decide,
    by with_unfolding_all decide⟩

/-! ### Feature computer (C5, C9) -/

/-- The code's true-range loop produces exactly the spec's per-bar true
ranges of bars 1..n-1, each taken against the previous bar's close. -/
theorem trLoop_eq_zip (c0 : Candle) (rest : List Candle) :
    trLoop c0.c rest =
      ((c0 :: rest).zip rest).map (fun pc => true_range_spec pc.1 pc.2) := by
  induction rest generalizing c0 with
  | nil => simp [trLoop]
  | cons r rs ih => simp [trLoop, true_range_spec, ih r]

/-- The true-range loop yields one entry per bar after the first. -/
theorem trLoop_length (p : ℚ) (l : List Candle) : (trLoop p l).length = l.length := by
  induction l generalizing p with
  | nil => simp [trLoop]
  | cons r rs ih => simp [trLoop, ih]

/-- C5: the claim says the volatility is the mean true range over the most
recent window and is 0 exactly when fewer than 2 bars exist.  In the code
the whole feature computation short-circuits to `(0.0, 0.0)` whenever fewer
than 6 bars exist (the momentum guard), so this amended claim states what
holds: whenever `_momentum_1m` returns, its volatility equals the spec's
mean true range over the most recent 14 bars if at least 6 bars exist, and
0 otherwise. -/
theorem claim_C5_amended (ohlc : List Candle) (m v : ℚ)
    (h : momentum_1m ohlc = some (m, v)) :
    v = if ohlc.length < 6 then 0 else volatility_spec 14 ohlc := by
  by_cases hlen : ohlc.length < 6
  · simp only [momentum_1m, hlen, if_true, Option.some.injEq, Prod.mk.injEq] at h
    rw [if_pos hlen, ← h.2]
  · rw [if_neg hlen]
    have h6 : 6 ≤ ohlc.length := not_lt.mp hlen
    obtain ⟨c0, rest, rfl⟩ : ∃ c0 rest, ohlc = c0 :: rest := by
      cases ohlc with
      | nil => simp at h6
      | cons a l => exact ⟨a, l, rfl⟩
    have hrl : 5 ≤ rest.length := by
      simp only [List.length_cons] at h6
      omega
    simp only [momentum_1m, hlen, if_false] at h
    set prev5 := ((c0 :: rest).map (fun x => x.c)).getD
      (((c0 :: rest).map (fun x => x.c)).length - 6) 0 with hp5
    by_cases hz : prev5 = 0
    · simp [hz] at h
    · rw [if_neg hz] at h
      have htrs : trLoop c0.c rest ≠ [] := by
        intro hnil
        have := trLoop_length c0.c rest
        rw [hnil] at this
        simp at this
        omega
      rw [if_neg htrs] at h
      obtain ⟨-, hv⟩ := Prod.mk.injEq .. ▸ Option.some.injEq .. ▸ h
      rw [← hv]
      have hlen2 : ¬ ((c0 :: rest).length < 2) := by
        simp only [List.length_cons]
        omega
      rw [volatility_spec, if_neg hlen2]
      have hzip : (c0 :: rest).tail = rest := rfl
      rw [hzip, ← trLoop_eq_zip]
      have hL : (trLoop c0.c rest).length = rest.length := trLoop_length c0.c rest
      have hdiv : max 1 (min 14 (trLoop c0.c rest).length) =
          min 14 (trLoop c0.c rest).length := by
        rw [hL]
        omega
      rw [hdiv]

/-- C5 counterexample: a well-formed series of 5 bars, each with true range
1 against its predecessor.  The spec's volatility (mean true range) is 1 and
the series has at least 2 bars, but the code returns volatility 0 because of
its 6-bar guard. -/
theorem claim_C5_counterexample :
    momentum_1m (List.replicate 5 ⟨0, 1, 2, 1, 1, 0, 0, 0⟩) = some (0, 0) ∧
    volatility_spec 14 (List.replicate 5 ⟨0, 1, 2, 1, 1, 0, 0, 0⟩) = 1 ∧
    ¬ ((List.replicate 5 (⟨0, 1, 2, 1, 1, 0, 0, 0⟩ : Candle)).length < 2) ∧
    (1 : ℚ) ≠ 0 := by
  refine ⟨by with_unfolding_all decide, by with_unfolding_all decide,
    by decide, by norm_num⟩

/-- C5 witness: a 6-bar series on which the code's volatility (1) agrees
with the spec's mean true range. -/
theorem claim_C5_witness :
    momentum_1m (List.replicate 6 (⟨0, 1, 2, 1, 1, 0, 0, 0⟩ : Candle)) = some (0, 1) ∧
    (1 : ℚ) = if (List.replicate 6 (⟨0, 1, 2, 1, 1, 0, 0, 0⟩ : Candle)).length < 6 then 0
              else volatility_spec 14 (List.replicate 6 (⟨0, 1, 2, 1, 1, 0, 0, 0⟩ : Candle)) :=
  ⟨by with_unfolding_all decide,
   claim_C5_amended _ 0 1 (by with_unfolding_all decide)⟩

/-- C9: the feature computation is not total: on a well-formed 6-bar series
whose close 5 bars before the last is 0 the momentum division raises
(modelled by `none`), while under the precondition that every close is
positive the division is safe and `_momentum_1m` always returns a value. -/
theorem claim_C9 :
    momentum_1m
      ((⟨0, 1, 2, 1, 0, 0, 0, 0⟩ : Candle) ::
        List.replicate 5 (⟨0, 1, 2, 1, 1, 0, 0, 0⟩ : Candle)) = none ∧
    ∀ ohlc : List Candle, (∀ x ∈ ohlc, 0 < x.c) →
      (momentum_1m ohlc).isSome = true := by
  constructor
  · with_unfolding_all decide
  · intro ohlc hpos
    by_cases hlen : ohlc.length < 6
    · simp [momentum_1m, hlen]
    · have h6 : 6 ≤ ohlc.length := not_lt.mp hlen
      have hmaplen : (ohlc.map (fun x => x.c)).length = ohlc.length :=
        List.length_map _ _
      have hidx : (ohlc.map (fun x => x.c)).length - 6 <
          (ohlc.map (fun x => x.c)).length := by omega
      have hmem : (ohlc.map (fun x => x.c)).getD
          ((ohlc.map (fun x => x.c)).length - 6) 0 ∈ ohlc.map (fun x => x.c) := by
        rw [List.getD_eq_getElem _ _ hidx]
        exact List.getElem_mem _
      rcases List.mem_map.mp hmem with ⟨x, hx, hxc⟩
      have hzpos : 0 < (ohlc.map (fun x => x.c)).getD
          ((ohlc.map (fun x => x.c)).length - 6) 0 := hxc ▸ hpos x hx
      have hz : ¬ ((ohlc.map (fun x => x.c)).getD
          ((ohlc.map (fun x => x.c)).length - 6) 0 = 0) := ne_of_gt hzpos
      simp only [momentum_1m, if_neg hlen, if_neg hz, Option.isSome_some]

/-- C9 witness: a 6-bar series with all closes positive, on which the
computation succeeds. -/
theorem claim_C9_witness :
    (∀ x ∈ List.replicate 6 (⟨0, 1, 2, 1, 1, 0, 0, 0⟩ : Candle), 0 < x.c) ∧
    (momentum_1m (List.replicate 6 (⟨0, 1, 2, 1, 1, 0, 0, 0⟩ : Candle))).isSome = true :=
  ⟨by with_unfolding_all decide,
   claim_C9.2 _ (by with_unfolding_all decide)⟩

/-! ### Pair resolution (C8) -/

/-- If the USD altname is listed, it is returned first. -/
theorem alt_from_symbol_usd_hit (pairs : List PairMeta) (symbol : String)
    (h : (pairs.any fun m => m.altname == symbol.toUpper ++ "USD") = true) :
    alt_from_symbol pairs symbol = some (symbol.toUpper ++ "USD") := by
  simp only [alt_from_symbol]
  rw [@List.find?_cons_of_pos String
    (fun suf => pairs.any fun m => m.altname == symbol.toUpper ++ suf) "USD" ["USDT"] h]

/-- If the USD altname is absent but the USDT altname is listed, the USDT
pair is returned. -/
theorem alt_from_symbol_usdt_hit (pairs : List PairMeta) (symbol : String)
    (h1 : (pairs.any fun m => m.altname == symbol.toUpper ++ "USD") = false)
    (h2 : (pairs.any fun m => m.altname == symbol.toUpper ++ "USDT") = true) :
    alt_from_symbol pairs symbol = some (symbol.toUpper ++ "USDT") := by
  simp only [alt_from_symbol]
  rw [@List.find?_cons_of_neg String
    (fun suf => pairs.any fun m => m.altname == symbol.toUpper ++ suf) "USD" ["USDT"]
    (by simp [h1]),
    @List.find?_cons_of_pos String
    (fun suf => pairs.any fun m => m.altname == symbol.toUpper ++ suf) "USDT" [] h2]

/-- C8: pair resolution tries the quote currencies in preference order (USD
before USDT) and returns the first altname present in the directory; it
returns none only when neither the USD nor the USDT candidate is listed
(and, in the code, also no wsname fallback matches). -/
theorem claim_C8 (pairs : List PairMeta) (symbol : String) :
    ((pairs.any fun m => m.altname == symbol.toUpper ++ "USD") = true →
      alt_from_symbol pairs symbol = some (symbol.toUpper ++ "USD")) ∧
    ((pairs.any fun m => m.altname == symbol.toUpper ++ "USD") = false →
     (pairs.any fun m => m.altname == symbol.toUpper ++ "USDT") = true →
      alt_from_symbol pairs symbol = some (symbol.toUpper ++ "USDT")) ∧
    (alt_from_symbol pairs symbol = none →
      (pairs.any fun m => m.altname == symbol.toUpper ++ "USD") = false ∧
      (pairs.any fun m => m.altname == symbol.toUpper ++ "USDT") = false) := by
  refine ⟨alt_from_symbol_usd_hit pairs symbol,
    alt_from_symbol_usdt_hit pairs symbol, ?_⟩
  intro hnone
  cases husd : (pairs.any fun m => m.altname == symbol.toUpper ++ "USD") with
  | true =>
    rw [alt_from_symbol_usd_hit pairs symbol husd] at hnone
    exact absurd hnone (by simp)
  | false =>
    cases husdt : (pairs.any fun m => m.altname == symbol.toUpper ++ "USDT") with
    | true =>
      rw [alt_from_symbol_usdt_hit pairs symbol husd husdt] at hnone
      exact absurd hnone (by simp)
    | false => exact ⟨rfl, rfl⟩

/-- C8 witness: the spec's concrete scenario 3 — symbol "BTC" with a
directory containing only the (BTC, USDT) pair resolves to the USDT altname
instead of failing. -/
theorem claim_C8_witness :
    ((([⟨"BTCUSDT", "BTC/USDT"⟩] : List PairMeta).any
        fun m => m.altname == "BTC".toUpper ++ "USD") = false) ∧
    ((([⟨"BTCUSDT", "BTC/USDT"⟩] : List PairMeta).any
        fun m => m.altname == "BTC".toUpper ++ "USDT") = true) ∧
    alt_from_symbol [⟨"BTCUSDT", "BTC/USDT"⟩] "BTC" =
      some ("BTC".toUpper ++ "USDT") :=
  ⟨by with_unfolding_all decide, by with_unfolding_all decide,
   (claim_C8 [⟨"BTCUSDT", "BTC/USDT"⟩] "BTC").2.1
     (by with_unfolding_all decide) (by with_unfolding_all decide)⟩

/-! ### Snapshot orchestrator (C1, C7) -/

/-- A successful recompute publishes exactly the returned payload into the
cache slot. -/
theorem refresh_payload (U : Upstream) (minWhale : ℚ) (symbols : List String)
    (now : ℚ) (p : Snapshot) (st1 : SnapCache) (k : ℕ)
    (h : compute_snapshot_refresh U minWhale symbols now = Except.ok (p, st1, k)) :
    st1.payload = some p := by
  unfold compute_snapshot_refresh at h
  cases hf : compute_snapshot_fresh U minWhale symbols now with
  | ok sn =>
    simp only [hf, Bind.bind, Except.bind, Except.ok.injEq, Prod.mk.injEq] at h
    obtain ⟨h1, h2, -⟩ := h
    rw [← h2, ← h1]
  | error e =>
    simp only [hf, Bind.bind, Except.bind] at h
    exact Except.noConfusion h

/-- C1: the claim says no per-symbol error escapes `compute_snapshot` and
failed symbols are recorded in a `skipped` list.  The code has no skip list
(unresolvable symbols are silently dropped by the pair filter), and this
amended claim states the actual error behavior: when the first symbol
resolves but its depth fetch raises, the exception propagates out of
`compute_snapshot` and the whole batch is aborted. -/
theorem claim_C1_amended (U : Upstream) (minWhale ttl now : ℚ) (st : SnapCache)
    (s0 : String) (rest : List String) (alt0 : String)
    (tk : List (String × TickerInfo)) (e : String)
    (hcache : st.payload = none)
    (hres : alt_from_symbol U.pairs s0 = some alt0)
    (htkr : U.ticker = Except.ok tk)
    (hdep : U.depth alt0 = Except.error e) :
    compute_snapshot U minWhale ttl (s0 :: rest) st now = Except.error e := by
  simp only [compute_snapshot, hcache, compute_snapshot_refresh, compute_snapshot_fresh,
    List.filterMap_cons, hres, List.isEmpty_cons, Bool.false_eq_true, if_false,
    htkr, List.zip_cons_cons, processAll, processSymbol, hdep,
    Bind.bind, Except.bind]

/-- C1 counterexample: a two-symbol universe in which the first symbol's
depth fetch fails; `compute_snapshot` raises (returns the error) instead of
skipping the symbol and producing the other symbol's record. -/
theorem claim_C1_counterexample :
    compute_snapshot
      ⟨[⟨"AAAUSD", "AAA/USD"⟩, ⟨"BBBUSD", "BBB/USD"⟩],
       Except.ok [],
       fun a => if a = "AAAUSD" then Except.error "DataUnavailable"
                else Except.ok ⟨[], []⟩,
       fun _ => Except.ok []⟩
      250000 20 ["AAA", "BBB"] ⟨0, none⟩ 0 =
      Except.error "DataUnavailable" := by
  with_unfolding_all rfl

/-- C1 witness: a concrete one-symbol universe discharging the hypotheses of
the amended claim. -/
theorem claim_C1_witness :
    alt_from_symbol [⟨"CCCUSD", "CCC/USD"⟩] "CCC" = some "CCCUSD" ∧
    compute_snapshot
      ⟨[⟨"CCCUSD", "CCC/USD"⟩], Except.ok [],
       fun _ => Except.error "boom", fun _ => Except.ok []⟩
      0 20 ["CCC"] ⟨0, none⟩ 0 = Except.error "boom" :=
  ⟨by with_unfolding_all decide,
   claim_C1_amended
     ⟨[⟨"CCCUSD", "CCC/USD"⟩], Except.ok [],
      fun _ => Except.error "boom", fun _ => Except.ok []⟩
     0 20 0 ⟨0, none⟩ "CCC" [] "CCCUSD" [] "boom" rfl
     (by with_unfolding_all decide) rfl rfl⟩

/-- C7: a second `compute_snapshot` call within the TTL window returns a
payload identical to the first call's result, performs no upstream fetches,
and leaves the cached snapshot unchanged. -/
theorem claim_C7 (U : Upstream) (minWhale ttl : ℚ) (symbols : List String)
    (st st1 : SnapCache) (p : Snapshot) (k : ℕ) (now now2 : ℚ)
    (h1 : compute_snapshot U minWhale ttl symbols st now = Except.ok (p, st1, k))
    (h2 : now2 - st1.ts < ttl) :
    compute_snapshot U minWhale ttl symbols st1 now2 = Except.ok (p, st1, 0) := by
  have hpay : st1.payload = some p := by
    cases hst : st.payload with
    | some q =>
      simp only [compute_snapshot, hst] at h1
      by_cases hin : now - st.ts < ttl
      · rw [if_pos hin] at h1
        simp only [Except.ok.injEq, Prod.mk.injEq] at h1
        obtain ⟨hpq, hst1, -⟩ := h1
        rw [← hst1, hst, hpq]
      · rw [if_neg hin] at h1
        exact refresh_payload U minWhale symbols now p st1 k h1
    | none =>
      simp only [compute_snapshot, hst] at h1
      exact refresh_payload U minWhale symbols now p st1 k h1
  simp only [compute_snapshot, hpay]
  rw [if_pos h2]

/-- C7 witness: an empty-universe snapshot; the second call at a later time
inside the TTL returns the identical payload, the unchanged cache and zero
upstream fetches. -/
theorem claim_C7_witness :
    compute_snapshot
      ⟨[], Except.ok [], fun _ => Except.error "x", fun _ => Except.error "x"⟩
      0 20 [] ⟨0, none⟩ 0 =
      Except.ok (⟨0, [], [], [], []⟩, ⟨0, some ⟨0, [], [], [], []⟩⟩, 0) ∧
    (1 : ℚ) - (0 : ℚ) < 20 ∧
    compute_snapshot
      ⟨[], Except.ok [], fun _ => Except.error "x", fun _ => Except.error "x"⟩
      0 20 [] ⟨0, some ⟨0, [], [], [], []⟩⟩ 1 =
      Except.ok (⟨0, [], [], [], []⟩, ⟨0, some ⟨0, [], [], [], []⟩⟩, 0) := by
  refine ⟨by with_unfolding_all rfl, by norm_num, ?_⟩
  exact claim_C7
    ⟨[], Except.ok [], fun _ => Except.error "x", fun _ => Except.error "x"⟩
    0 20 [] ⟨0, none⟩ ⟨0, some ⟨0, [], [], [], []⟩⟩ ⟨0, [], [], [], []⟩ 0 0 1
    (by with_unfolding_all rfl) (by norm_num)

end WhaleWatcher
